import Mathlib

/-!
Verification of the solver-selection / linear-solver core of the symfit
curve-fitting framework, as described by the repository's specification
and pinned by its test suite (src/tests/test_auto_fit.py and
src/tests/test_linear_solvers.py).

The repository ships only the tests and an interactive tool; the core
modules (symfit.Fit, symfit.core.linear_solvers, symfit.core.models) are
not under src/.  Every definition below that embeds one of those missing
modules is therefore modelled from the specification, with the observable
behaviour asserted by the tests taken as authoritative wherever the two
disagree.  All numbers are exact rationals, standing for the floating
point values of the source.
-/

namespace Symfit

/- ====================================================================
   Scalar world: symbolic scalar models and the Fit dispatcher
   (symfit.Fit, symfit.core Model.shared_parameters), exercised by
   src/tests/test_auto_fit.py.
   ==================================================================== -/

/-- Modelled from the spec: attributes of a scalar `Parameter` (symfit
Parameter): current value, optional min/max bounds, fixed flag.
Parameters are identified by a numeric id, standing for Python object
identity. -/
structure ParamAttr where
  value : ℚ := 1
  pmin : Option ℚ := none
  pmax : Option ℚ := none
  fixed : Bool := false
  deriving DecidableEq, Repr

/-- Modelled from the spec: symbolic scalar expressions over independent
variables (by name) and parameters (by id), the shape used by the models
of src/tests/test_auto_fit.py. -/
inductive Expr where
  | const (q : ℚ)
  | var (v : String)
  | param (p : ℕ)
  | add (a b : Expr)
  | mul (a b : Expr)
  | pow (a : Expr) (n : ℕ)
  deriving DecidableEq, Repr

/-- Parameter ids occurring in an expression. -/
def Expr.params : Expr → List ℕ
  | const _ => []
  | var _ => []
  | param p => [p]
  | add a b => a.params ++ b.params
  | mul a b => a.params ++ b.params
  | pow a _ => a.params

/-- One equation of a scalar model: dependent-variable name and
right-hand side. -/
abbrev SEquation := String × Expr

/-- Modelled from the spec: a scalar model is an ordered mapping from
dependent variables to expressions (a vector model when it has more than
one equation). -/
abbrev SModel := List SEquation

/-- The parameter occurs in the given equation. -/
def occursInEq (p : ℕ) (eq : SEquation) : Bool := p ∈ eq.2.params

/-- All parameter ids of a model, deduplicated. -/
def modelParams (m : SModel) : List ℕ :=
  (m.flatMap fun eq => eq.2.params).dedup

/-- Modelled from the spec: `Model.shared_parameters` — walking the
equations in order while accumulating the parameters seen so far, the
model shares parameters iff some equation mentions a parameter already
seen in an earlier equation. -/
def sharedParametersAux (seen : List ℕ) : SModel → Bool
  | [] => false
  | eq :: rest =>
    if eq.2.params.any (fun p => p ∈ seen) then true
    else sharedParametersAux (seen ++ eq.2.params) rest

/-- Modelled from the spec: `Model.shared_parameters`, true iff the same
Parameter instance appears in at least two equations. -/
def shared_parameters (m : SModel) : Bool := sharedParametersAux [] m

/-- A registry assigning attributes to every parameter id (the mutable
state of the Parameter objects at the time a Fit is constructed). -/
abbrev ParamRegistry := ℕ → ParamAttr

/-- Some parameter of the model carries an explicit min or max bound. -/
def hasBounds (reg : ParamRegistry) (m : SModel) : Bool :=
  (modelParams m).any fun p => (reg p).pmin.isSome || (reg p).pmax.isSome

/-- Modelled from the spec: a constraint (e.g. `Equality(lhs, rhs)`)
relating parameters.  Only its presence matters to the dispatcher. -/
structure SConstraint where
  lhs : Expr
  rhs : ℚ
  deriving DecidableEq

/-- The two nonlinear minimizer classes the dispatcher chooses between. -/
inductive MinimizerKind where
  | numericalLeastSquares
  | constrainedNumericalLeastSquares
  deriving DecidableEq, Repr

/-- Modelled from the spec: the Dispatcher's minimizer selection.  The
spec's rule list says every multi-equation model selects the constrained
minimizer, but src/tests/test_auto_fit.py (test_global_fitting) requires
`NumericalLeastSquares` for a two-equation model with disjoint parameter
sets and no bounds or constraints, so the vector-model case triggers the
constrained minimizer only through `shared_parameters`.  Constraints and
explicit parameter bounds always select the constrained minimizer. -/
def selectMinimizer (reg : ParamRegistry) (m : SModel)
    (constraints : List SConstraint) : MinimizerKind :=
  if ¬constraints.isEmpty || hasBounds reg m || shared_parameters m then
    .constrainedNumericalLeastSquares
  else
    .numericalLeastSquares

/-- Modelled from the spec: the configured fit returned by constructing
`Fit`; the chosen minimizer class is stored in the `fit` field, so it can
be inspected before `execute()` runs. -/
structure Fit where
  model : SModel
  registry : ParamRegistry
  constraints : List SConstraint
  fit : MinimizerKind

/-- Modelled from the spec: `Fit(model, **data, constraints=...)` —
classification happens at construction. -/
def Fit.construct (reg : ParamRegistry) (m : SModel)
    (constraints : List SConstraint) : Fit :=
  { model := m, registry := reg, constraints := constraints,
    fit := selectMinimizer reg m constraints }

/- Concrete scalar models of src/tests/test_auto_fit.py.
Parameter ids: a = 0, b = 1, c = 2, a_1 = 3, a_2 = 4, b_1 = 5, b_2 = 6,
y0 = 7. -/

/-- The scalar model `{a_i: a + b}` of test_vector_fitting. -/
def scalarModel : SModel := [("a_i", .add (.param 0) (.param 1))]

/-- The vector model `{a_i: a, b_i: b, c_i: c}` of test_vector_fitting. -/
def vectorModel : SModel :=
  [("a_i", .param 0), ("b_i", .param 1), ("c_i", .param 2)]

/-- The shared-parameter vector model of test_global_fitting:
`{y_1: a_1*x_1**2 + b_1*x_1 + y0, y_2: a_2*x_2**2 + b_2*x_2 + y0}`. -/
def globalSharedModel : SModel :=
  [("y_1", .add (.add (.mul (.param 3) (.pow (.var "x_1") 2))
                      (.mul (.param 5) (.var "x_1"))) (.param 7)),
   ("y_2", .add (.add (.mul (.param 4) (.pow (.var "x_2") 2))
                      (.mul (.param 6) (.var "x_2"))) (.param 7))]

/-- The disjoint-parameter vector model of test_global_fitting:
`{y_1: a_1*x_1**2 + b_1*x_1, y_2: a_2*x_2**2 + b_2*x_2}`. -/
def globalDisjointModel : SModel :=
  [("y_1", .add (.mul (.param 3) (.pow (.var "x_1") 2))
                (.mul (.param 5) (.var "x_1"))),
   ("y_2", .add (.mul (.param 4) (.pow (.var "x_2") 2))
                (.mul (.param 6) (.var "x_2")))]

/-- Registry with all parameters at their defaults (no bounds). -/
def regFree : ParamRegistry := fun _ => {}

/-- Registry after test_vector_fitting sets `a.min = 0`, `a.max = 25`,
`a.value = 10`, `b.min = 80`, `b.max = 120`, `b.value = 100`. -/
def regBounded : ParamRegistry := fun p =>
  if p = 0 then { value := 10, pmin := some 0, pmax := some 25 }
  else if p = 1 then { value := 100, pmin := some 80, pmax := some 120 }
  else {}

/-- A sample constraint, `Equality(a + b, 110)`. -/
def eqConstraint : SConstraint := ⟨.add (.param 0) (.param 1), 110⟩

/- ====================================================================
   Matrix world: matrix-shaped models and the linear solvers
   (symfit.core.linear_solvers LstSq / LstSqBounds, CallableModel),
   exercised by src/tests/test_linear_solvers.py.
   ==================================================================== -/

/-- Rational matrices with statically known shape. -/
abbrev Mat (r c : ℕ) := Matrix (Fin r) (Fin c) ℚ

/-- Modelled from the spec: a scalar `Parameter` of a matrix model,
carrying its current value and fixed flag. -/
structure ScalarParam where
  value : ℚ
  fixed : Bool := false
  deriving DecidableEq

/-- Modelled from the spec: symbolic scalar coefficients appearing
inside matrix expressions (e.g. `z`, `1/a**2`). -/
inductive SExpr where
  | const (q : ℚ)
  | sparam (name : String)
  | mul (a b : SExpr)
  | pow (a : SExpr) (n : ℕ)
  | inv (a : SExpr)
  deriving DecidableEq

/-- Evaluate a scalar coefficient at the current parameter values. -/
def SExpr.eval (env : String → ℚ) : SExpr → ℚ
  | const q => q
  | sparam n => env n
  | mul a b => a.eval env * b.eval env
  | pow a n => a.eval env ^ n
  | inv a => (a.eval env)⁻¹

/-- Modelled from the spec: symbolic matrix expressions, shape-indexed.
Leaves are data `MatrixSymbol`s and matrix-shaped Parameters, both
referred to by name. -/
inductive MExpr : ℕ → ℕ → Type where
  | data (name : String) (r c : ℕ) : MExpr r c
  | mparam (name : String) (r c : ℕ) : MExpr r c
  | zero (r c : ℕ) : MExpr r c
  | idm (n : ℕ) : MExpr n n
  | smul {r c : ℕ} (s : SExpr) (e : MExpr r c) : MExpr r c
  | add {r c : ℕ} (a b : MExpr r c) : MExpr r c
  | mul {r k c : ℕ} (a : MExpr r k) (b : MExpr k c) : MExpr r c
  | transpose {r c : ℕ} (a : MExpr r c) : MExpr c r
  | pow {n : ℕ} (a : MExpr n n) (k : ℕ) : MExpr n n

/-- Environment mapping a symbol name to a matrix of any requested
shape (data symbols and current matrix-parameter values; unknown names
evaluate to zero). -/
abbrev MEnv := String → (r c : ℕ) → Mat r c

/-- Evaluate a matrix expression at data and current parameter values. -/
def MExpr.eval (env : MEnv) (sEnv : String → ℚ) :
    {r c : ℕ} → MExpr r c → Mat r c
  | _, _, data n r c => env n r c
  | _, _, mparam n r c => env n r c
  | _, _, zero _ _ => 0
  | _, _, idm _ => 1
  | _, _, smul s e => s.eval sEnv • e.eval env sEnv
  | _, _, add a b => a.eval env sEnv + b.eval env sEnv
  | _, _, mul a b => a.eval env sEnv * b.eval env sEnv
  | _, _, transpose a => (a.eval env sEnv).transpose
  | _, _, pow a k => a.eval env sEnv ^ k

/-- The matrix parameter named `p` occurs in the expression. -/
def MExpr.containsP (p : String) : {r c : ℕ} → MExpr r c → Bool
  | _, _, data _ _ _ => false
  | _, _, mparam q _ _ => q = p
  | _, _, zero _ _ => false
  | _, _, idm _ => false
  | _, _, smul _ e => e.containsP p
  | _, _, add a b => a.containsP p || b.containsP p
  | _, _, mul a b => a.containsP p || b.containsP p
  | _, _, transpose a => a.containsP p
  | _, _, pow a _ => a.containsP p

/-- Data symbols of the expression, with the shapes at which they are
used. -/
def MExpr.dataDims : {r c : ℕ} → MExpr r c → List (String × ℕ × ℕ)
  | _, _, data n r c => [(n, r, c)]
  | _, _, mparam _ _ _ => []
  | _, _, zero _ _ => []
  | _, _, idm _ => []
  | _, _, smul _ e => e.dataDims
  | _, _, add a b => a.dataDims ++ b.dataDims
  | _, _, mul a b => a.dataDims ++ b.dataDims
  | _, _, transpose a => a.dataDims
  | _, _, pow a _ => a.dataDims

/-- Modelled from the spec: symbolic test for affine appearance of the
matrix parameter `p` (declared with shape `pr × pc`).  Returns the
decomposition `e = coeff * p + const` when `e` is affine in `p`, `none`
when `p` enters nonlinearly (under a matrix power, a transpose, or on
the left of a product as in `c.T * c`).  This is the affine-ness
inspection the Linear Solver performs before touching any data. -/
def MExpr.affineParts (p : String) (pr pc : ℕ) :
    {r c : ℕ} → MExpr r c → Option (MExpr r pr × MExpr r c)
  | r, c, e =>
    if e.containsP p then
      match e with
      | .mparam q r' c' =>
        if q = p then
          if h : r' = pr ∧ c' = pc then
            some (Eq.rec (motive := fun x _ => MExpr r' x) (MExpr.idm r') h.1,
                  MExpr.zero r' c')
          else none
        else none
      | .smul s a =>
        match a.affineParts p pr pc with
        | none => none
        | some (ca, ka) => some (.smul s ca, .smul s ka)
      | .add a b =>
        match a.affineParts p pr pc, b.affineParts p pr pc with
        | some (ca, ka), some (cb, kb) => some (.add ca cb, .add ka kb)
        | _, _ => none
      | .mul a b =>
        if a.containsP p then none
        else
          match b.affineParts p pr pc with
          | none => none
          | some (cb, kb) => some (.mul a cb, .mul a kb)
      | _ => none
    else
      some (.zero r pr, e)

/-- Modelled from the spec: a matrix-shaped Parameter declaration
(`MatrixSymbol(Parameter(...), r, c)`): name, shape, optional
elementwise bounds, fixed flag. -/
structure MatParam where
  name : String
  rows : ℕ
  cols : ℕ
  pmin : Option (Mat rows cols) := none
  pmax : Option (Mat rows cols) := none
  fixed : Bool := false

/-- Modelled from the spec: one equation of a matrix model. -/
structure MEq where
  lhs : String
  rows : ℕ
  cols : ℕ
  rhs : MExpr rows cols

/-- Modelled from the spec: `CallableModel` — equations plus the
declared matrix parameters and scalar parameters. -/
structure CallableModel where
  eqs : List MEq
  mparams : List MatParam
  sparams : List (String × ScalarParam)

/-- Data supplied to a fit or solver: name to matrix, with shape. -/
abbrev MData := List (String × ((r : ℕ) × (c : ℕ) × Mat r c))

/-- Reindex a matrix along equalities of its dimensions. -/
def castMat {r1 c1 r2 c2 : ℕ} (h1 : r1 = r2) (h2 : c1 = c2)
    (M : Mat r1 c1) : Mat r2 c2 :=
  fun i j => M ⟨i.1, Nat.lt_of_lt_of_eq i.2 h1.symm⟩
               ⟨j.1, Nat.lt_of_lt_of_eq j.2 h2.symm⟩

/-- Look up a data matrix by name at an expected shape. -/
def getData (d : MData) (name : String) (r c : ℕ) : Option (Mat r c) :=
  match d.lookup name with
  | none => none
  | some ⟨r', c', M⟩ =>
    if h : r' = r ∧ c' = c then some (castMat h.1 h.2 M) else none

/-- Evaluation environment induced by the data (missing names are 0;
they are checked for presence before any evaluation). -/
def dataEnv (d : MData) : MEnv := fun n r c => (getData d n r c).getD 0

/-- Current scalar-parameter values of a model. -/
def CallableModel.sEnv (m : CallableModel) : String → ℚ :=
  fun n => ((m.sparams.lookup n).map (·.value)).getD 0

/-- All data symbols used by an equation are present at the right
shape, including the dependent-variable data itself. -/
def eqDataOk (d : MData) (eq : MEq) : Bool :=
  (eq.rhs.dataDims.all fun t => (getData d t.1 t.2.1 t.2.2).isSome) &&
    (getData d eq.lhs eq.rows eq.cols).isSome

/-- The parameter occurs somewhere in the model. -/
def CallableModel.occurs (m : CallableModel) (p : String) : Bool :=
  m.eqs.any fun eq => eq.rhs.containsP p

/-- The equations in which the parameter appears affinely (the ones
from which its linear subproblem is built). -/
def affineEqsFor (m : CallableModel) (pd : MatParam) : List MEq :=
  m.eqs.filter fun eq =>
    eq.rhs.containsP pd.name && (eq.rhs.affineParts pd.name pd.rows pd.cols).isSome

/-- Modelled from the spec: the non-fixed matrix parameters that enter
the model linearly (affinely in at least one equation). -/
def CallableModel.linearParams (m : CallableModel) : List MatParam :=
  m.mparams.filter fun pd =>
    !pd.fixed && m.occurs pd.name && !(affineEqsFor m pd).isEmpty

/-- A putative linear parameter actually enters only nonlinearly: it
occurs in the model but has no affine occurrence at all. -/
def CallableModel.hasNonlinearMatParam (m : CallableModel) : Bool :=
  m.mparams.any fun pd =>
    !pd.fixed && m.occurs pd.name && (affineEqsFor m pd).isEmpty

/- ====================================================================
   The linear solvers proper: LstSq and LstSqBounds.
   ==================================================================== -/

/-- The Gram matrix of the design matrix (the normal-equations matrix). -/
def gram {L n : ℕ} (A : Mat L n) : Mat n n := A.transpose * A

/-- The normal-equations right-hand side. -/
def atv {L n : ℕ} (A : Mat L n) (y : Fin L → ℚ) : Fin n → ℚ :=
  A.transpose.mulVec y

/-- Exact solve of a square system by Cramer's rule; `none` when the
matrix is singular (decomposition failure, which the spec makes fatal). -/
def cramerSolve {n : ℕ} (B : Mat n n) (c : Fin n → ℚ) : Option (Fin n → ℚ) :=
  if B.det = 0 then none
  else some fun i => (B.updateColumn i c).det / B.det

/-- Least-squares objective of the system `M z = c`. -/
def lsObjective {L n : ℕ} (M : Mat L n) (c : Fin L → ℚ) (z : Fin n → ℚ) : ℚ :=
  ∑ i, (M.mulVec z i - c i) ^ 2

/-- All components nonnegative. -/
def isNonneg {n : ℕ} (z : Fin n → ℚ) : Bool :=
  (List.finRange n).all fun k => decide (0 ≤ z k)

/-- Candidate solution of the nonnegative least-squares problem
supported on the index set `σ`: the normal equations restricted to the
support (off-support rows and columns are replaced by identity rows, so
the off-support components are forced to zero and the on-support block
is the restricted Gram system). -/
def supportCandidate {L n : ℕ} (M : Mat L n) (c : Fin L → ℚ)
    (σ : Fin n → Bool) : Option (Fin n → ℚ) :=
  cramerSolve
    (fun i j => if σ i && σ j then gram M i j else if i = j then 1 else 0)
    (fun i => if σ i then atv M c i else 0)

/-- All support vectors over `n` columns. -/
def allSupports (n : ℕ) : List (Fin n → Bool) :=
  (List.finRange n).sublists.map fun s k => decide (k ∈ s)

/-- Modelled from the spec: the nonnegative least-squares library
primitive (scipy.optimize.nnls), an out-of-scope numeric collaborator.
Characterised extensionally: among the candidate solutions supported on
each subset of the columns, return the feasible one with the smallest
residual (this is the exact optimum whenever the relevant Gram
subsystems are nonsingular). -/
def nnls {L n : ℕ} (M : Mat L n) (c : Fin L → ℚ) : Fin n → ℚ :=
  let cands :=
    ((allSupports n).filterMap (supportCandidate M c)).filter isNonneg
  cands.foldl
    (fun best z => if lsObjective M c z < lsObjective M c best then z else best) 0

/-- Modelled from the spec: one column of the bounded linear
least-squares solve of `LstSqBounds`.  The problem is shifted by the
lower bound and handed to the nonnegative solver applied to the
normal equations (`nnls(AᵀA, Aᵀy − AᵀA·lb)`); this reproduces exactly
the values src/tests/test_linear_solvers.py pins (`[2.1, 2.85]` for the
concrete bounded problem — an exact box-constrained minimizer would
return `[2.1, 2.9]` there).  The upper bound is then enforced by
policy as a half-open interval: a component that would reach `ub` is
pulled back strictly inside. -/
def boundedCol {L n : ℕ} (A : Mat L n) (y : Fin L → ℚ)
    (lb : Fin n → ℚ) (ub : Fin n → Option ℚ) : Fin n → ℚ :=
  let B := gram A
  let q := fun i => atv A y i - B.mulVec lb i
  let z := nnls B q
  fun i =>
    match ub i with
    | none => lb i + z i
    | some u => if lb i + z i < u then lb i + z i else (lb i + u) / 2

/-- Unbounded least-squares solve of the matrix subproblem `A X = Y`,
column by column (np.linalg.lstsq on the normal equations). -/
def solveCols {L n pc : ℕ} (A : Mat L n) (Y : Mat L pc) : Option (Mat n pc) :=
  if (gram A).det = 0 then none
  else some fun i j =>
    ((gram A).updateColumn i (atv A fun r => Y r j)).det / (gram A).det

/-- Bounded least-squares solve of the matrix subproblem, column by
column. -/
def boundedSolveCols {L n pc : ℕ} (A : Mat L n) (Y : Mat L pc)
    (lb : Mat n pc) (ub : Option (Mat n pc)) : Mat n pc :=
  fun i j =>
    boundedCol A (fun r => Y r j) (fun k => lb k j)
      (fun k => ub.map fun U => U k j) i

/-- Stack two design-matrix blocks vertically. -/
def vappend {L1 L2 n : ℕ} (A : Mat L1 n) (B : Mat L2 n) : Mat (L1 + L2) n :=
  fun i j =>
    if h : i.1 < L1 then A ⟨i.1, h⟩ j
    else B ⟨i.1 - L1, by have hi := i.2; omega⟩ j

/-- Assemble the stacked design matrix and target across the equations
sharing a linear parameter. -/
def stackSubproblems {pr pc : ℕ} :
    List (Σ L : ℕ, Mat L pr × Mat L pc) → Σ L : ℕ, Mat L pr × Mat L pc
  | [] => ⟨0, fun i _ => i.elim0, fun i _ => i.elim0⟩
  | [p] => p
  | p :: q :: rest =>
    let s := stackSubproblems (q :: rest)
    ⟨p.1 + s.1, vappend p.2.1 s.2.1, vappend p.2.2 s.2.2⟩

/-- Build the `(A, y)` pair of one equation for one linear parameter:
`A` is the evaluated affine coefficient of the parameter and `y` the
dependent-variable data minus the evaluated additive terms not involving
the parameter.  `none` when the parameter is not affine in this equation
or the needed data is absent. -/
def buildSubproblem (m : CallableModel) (d : MData) (pd : MatParam)
    (eq : MEq) : Option (Σ L : ℕ, Mat L pd.rows × Mat L pd.cols) :=
  match eq.rhs.affineParts pd.name pd.rows pd.cols with
  | none => none
  | some (coeff, konst) =>
    if hc : eq.cols = pd.cols then
      match getData d eq.lhs eq.rows eq.cols with
      | none => none
      | some Y =>
        some ⟨eq.rows, coeff.eval (dataEnv d) m.sEnv,
              castMat rfl hc (Y - konst.eval (dataEnv d) m.sEnv)⟩
    else none

/-- Modelled from the spec: `linear_solver.subproblems_data`, the
per-equation `(A, y)` pairs the solver last built, keyed by the linear
parameter. -/
def subproblems_data (m : CallableModel) (d : MData) (pd : MatParam) :
    List (Σ L : ℕ, Mat L pd.rows × Mat L pd.cols) :=
  m.eqs.filterMap (buildSubproblem m d pd)

/-- Errors of the linear solvers: a parameter assumed linear is
nonlinear (ModelError), no/missing data (TypeError), singular
decomposition (fatal numerical failure). -/
inductive LinearSolverError where
  | modelError
  | typeError
  | numericalError
  deriving DecidableEq, Repr

/-- The result of a fit: solved parameter values keyed by name. -/
structure FitResult where
  params : List (String × ((r : ℕ) × (c : ℕ) × Mat r c))

/-- One entry of one solved parameter of a result. -/
def FitResult.entry (res : FitResult) (p : String) (i j : ℕ) : Option ℚ :=
  match res.params.lookup p with
  | none => none
  | some ⟨r, c, M⟩ =>
    if hi : i < r then
      if hj : j < c then some (M ⟨i, hi⟩ ⟨j, hj⟩) else none
    else none

/-- Solve all linear parameters with the given per-parameter solver. -/
def solveAll (solver : (pd : MatParam) → Option (Mat pd.rows pd.cols)) :
    List MatParam → Option (List (String × ((r : ℕ) × (c : ℕ) × Mat r c)))
  | [] => some []
  | pd :: rest =>
    match solver pd, solveAll solver rest with
    | some X, some tail => some ((pd.name, ⟨pd.rows, pd.cols, X⟩) :: tail)
    | _, _ => none

/-- Modelled from the spec: the common `execute()` skeleton of the
linear solvers.  Affine-ness of every putative linear parameter is
checked first, by symbolic inspection and before any data is touched
(ModelError); then the presence of all needed data (TypeError, the
src/tests/test_linear_solvers.py `test_nodata` behaviour); then the
subproblems are solved (a singular decomposition is fatal). -/
def executeWith
    (solver : CallableModel → MData → (pd : MatParam) → Option (Mat pd.rows pd.cols))
    (m : CallableModel) (d : MData) : Except LinearSolverError FitResult :=
  if m.hasNonlinearMatParam then .error .modelError
  else if !(m.linearParams.all fun pd => (affineEqsFor m pd).all (eqDataOk d)) then
    .error .typeError
  else
    match solveAll (solver m d) m.linearParams with
    | none => .error .numericalError
    | some ps => .ok ⟨ps⟩

/-- The unbounded solver's solve step for one parameter. -/
def solveParamLstSq (m : CallableModel) (d : MData) (pd : MatParam) :
    Option (Mat pd.rows pd.cols) :=
  let s := stackSubproblems (subproblems_data m d pd)
  solveCols s.2.1 s.2.2

/-- The bounded solver's solve step for one parameter: without bounds it
degenerates to the unbounded solve, with a lower bound it shifts and
calls the nonnegative solver. -/
def solveParamLstSqBounds (m : CallableModel) (d : MData) (pd : MatParam) :
    Option (Mat pd.rows pd.cols) :=
  let s := stackSubproblems (subproblems_data m d pd)
  match pd.pmin with
  | none => solveCols s.2.1 s.2.2
  | some lb => some (boundedSolveCols s.2.1 s.2.2 lb pd.pmax)

/-- Modelled from the spec: `LstSq(model, data=...)` — construction
performs no validation (test_nodata constructs a solver with empty data
successfully); all checking happens in `execute()`. -/
def LstSq.construct (m : CallableModel) (d : MData) :
    Except LinearSolverError (CallableModel × MData) :=
  .ok (m, d)

/-- Modelled from the spec: `LstSq.execute()`. -/
def LstSq.execute (m : CallableModel) (d : MData) :
    Except LinearSolverError FitResult :=
  executeWith solveParamLstSq m d

/-- Modelled from the spec: `LstSqBounds.execute()`. -/
def LstSqBounds.execute (m : CallableModel) (d : MData) :
    Except LinearSolverError FitResult :=
  executeWith solveParamLstSqBounds m d

/- ====================================================================
   The Dispatcher's linear-solver attachment and the purely linear
   short-circuit of Fit.execute.
   ==================================================================== -/

/-- The two linear-solver classes the Dispatcher chooses between. -/
inductive LinearSolverKind where
  | lstsq
  | lstsqBounds
  deriving DecidableEq, Repr

/-- Modelled from the spec: the Dispatcher attaches a Linear Solver iff
some parameter block enters linearly, the bounded variant iff any linear
parameter has bounds. -/
def Fit.linear_solver (m : CallableModel) : Option LinearSolverKind :=
  if m.linearParams.isEmpty then none
  else if m.linearParams.any fun pd => pd.pmin.isSome || pd.pmax.isSome then
    some .lstsqBounds
  else some .lstsq

/-- No free nonlinear parameters remain: every scalar parameter is
fixed and every free matrix parameter is linear. -/
def Fit.purelyLinear (m : CallableModel) : Bool :=
  (m.sparams.all fun t => t.2.fixed) &&
    (m.mparams.all fun pd =>
      pd.fixed || !m.occurs pd.name || !(affineEqsFor m pd).isEmpty)

/-- Modelled from the spec: fitting a purely linear model short-circuits
to a single linear solve without invoking the nonlinear minimizer.  The
nonlinear outer iteration is an external minimizer strategy and is
outside this embedding (`none`). -/
def Fit.executeLinear (m : CallableModel) (d : MData) :
    Option (Except LinearSolverError FitResult) :=
  if Fit.purelyLinear m then
    match Fit.linear_solver m with
    | some .lstsq => some (LstSq.execute m d)
    | some .lstsqBounds => some (LstSqBounds.execute m d)
    | none => none
  else none

/-- Project the result out of an `execute()` return value. -/
def execResult (e : Except LinearSolverError FitResult) : FitResult :=
  match e with
  | .ok r => r
  | .error _ => ⟨[]⟩

/-- One parameter entry of an `execute()` return value. -/
def executedEntry (e : Except LinearSolverError FitResult) (p : String)
    (i j : ℕ) : Option ℚ :=
  match e with
  | .ok r => r.entry p i j
  | .error _ => none

/-- One parameter entry of a `Fit.executeLinear` return value. -/
def fitEntry (o : Option (Except LinearSolverError FitResult)) (p : String)
    (i j : ℕ) : Option ℚ :=
  match o with
  | some e => executedEntry e p i j
  | none => none

/-- Environment for evaluating the model at its fitted result: solved
parameters take their fitted values, everything else comes from the
data. -/
def resultEnv (d : MData) (res : FitResult) : MEnv := fun n r c =>
  match res.params.lookup n with
  | some ⟨r', c', M⟩ =>
    if h : r' = r ∧ c' = c then castMat h.1 h.2 M else dataEnv d n r c
  | none => dataEnv d n r c

/-- One entry of equation `k` of the model evaluated at the independent
data together with a fit result's parameter values
(`model(**independent_data, **result.params)`). -/
def fittedModelEntry (m : CallableModel) (d : MData) (res : FitResult)
    (k i j : ℕ) : Option ℚ :=
  match m.eqs[k]? with
  | none => none
  | some eq =>
    if hi : i < eq.rows then
      if hj : j < eq.cols then
        some (eq.rhs.eval (resultEnv d res) m.sEnv ⟨i, hi⟩ ⟨j, hj⟩)
      else none
    else none

/-- One entry of a supplied data matrix. -/
def dataEntry (d : MData) (name : String) (i j : ℕ) : Option ℚ :=
  match d.lookup name with
  | none => none
  | some ⟨r, c, M⟩ =>
    if hi : i < r then
      if hj : j < c then some (M ⟨i, hi⟩ ⟨j, hj⟩) else none
    else none

/- ====================================================================
   Concrete fixtures of src/tests/test_linear_solvers.py.
   ==================================================================== -/

/-- The design-matrix data `A = [[3, 1], [1, 2]]` of the tests. -/
def Amat : Mat 2 2 := ![![3, 1], ![1, 2]]

/-- The target data `y = [[9], [8]]` of the tests. -/
def ymat : Mat 2 1 := ![![9], ![8]]

/-- `MatrixSymbol(Parameter('x'), 2, 1)`: the unbounded linear
parameter. -/
def xParam : MatParam := { name := "x", rows := 2, cols := 1 }

/-- `MatrixSymbol(Parameter('x_bounded', min=[[2.1], [2.5]]), 2, 1)`. -/
def xBoundedParam : MatParam :=
  { name := "x_bounded", rows := 2, cols := 1,
    pmin := some ![![21 / 10], ![5 / 2]] }

/-- `CallableModel({y: A * x})` with the unbounded parameter. -/
def simple_model : CallableModel :=
  ⟨[⟨"y", 2, 1, .mul (.data "A" 2 2) (.mparam "x" 2 1)⟩], [xParam], []⟩

/-- `CallableModel({y: A * x_bounded})` with the bounded parameter. -/
def bounded_model : CallableModel :=
  ⟨[⟨"y", 2, 1, .mul (.data "A" 2 2) (.mparam "x_bounded" 2 1)⟩],
   [xBoundedParam], []⟩

/-- The data mapping `{A: A_mat, y: y_mat}` of the tests. -/
def dataAy : MData := [("A", ⟨2, 2, Amat⟩), ("y", ⟨2, 1, ymat⟩)]

/-- The same simple model with the data left symbolic. -/
def dataOf (A : Mat 2 2) (y : Mat 2 1) : MData :=
  [("A", ⟨2, 2, A⟩), ("y", ⟨2, 1, y⟩)]

/-- `MatrixSymbol(Parameter('x'), 2, 2)` of test_nonlinear_problems. -/
def x2Param : MatParam := { name := "x", rows := 2, cols := 2 }

/-- `CallableModel({y: A * x**2})` of test_nonlinear_problems: the
putative linear parameter enters at the second power. -/
def nonlinear_model : CallableModel :=
  ⟨[⟨"y", 2, 2, .mul (.data "A" 2 2) (.pow (.mparam "x" 2 2) 2)⟩],
   [x2Param], []⟩

/-- An overdetermined design: two rows, one unknown. -/
def AmatOv : Mat 2 1 := ![![1], ![1]]

/-- Inconsistent targets for the overdetermined design. -/
def ymatOv : Mat 2 1 := ![![0], ![1]]

/-- The scalar-shaped linear parameter of the overdetermined model. -/
def xOvParam : MatParam := { name := "x", rows := 1, cols := 1 }

/-- `CallableModel({y: A * x})` with `A` two-by-one: a least-squares
problem whose residual cannot vanish. -/
def overdet_model : CallableModel :=
  ⟨[⟨"y", 2, 1, .mul (.data "A" 2 1) (.mparam "x" 1 1)⟩], [xOvParam], []⟩

/-- Data for the overdetermined model. -/
def dataOv : MData := [("A", ⟨2, 1, AmatOv⟩), ("y", ⟨2, 1, ymatOv⟩)]

/-- `MatrixSymbol(Parameter('c'), N, 1)` of test_linear_subproblem. -/
def cParam (N : ℕ) : MatParam := { name := "c", rows := N, cols := 1 }

/-- The model of test_linear_subproblem,
`{F: z * (I + M / a**2) * c, d: c.T * c}`, with the scalar parameters at
current values `a.value = av` (free) and `z.value = zv` (fixed). -/
def subproblem_model (N : ℕ) (av zv : ℚ) : CallableModel :=
  ⟨[⟨"F", N, 1,
      .smul (.sparam "z")
        (.mul (.add (.data "I" N N)
                    (.smul (.inv (.pow (.sparam "a") 2)) (.data "M" N N)))
              (.mparam "c" N 1))⟩,
    ⟨"d", 1, 1, .mul (.transpose (.mparam "c" N 1)) (.mparam "c" N 1)⟩],
   [cParam N],
   [("a", ⟨av, false⟩), ("z", ⟨zv, true⟩)]⟩

/-- Data for the subproblem model. -/
def subproblemData (N : ℕ) (Imat Mmat : Mat N N) (Fmat : Mat N 1) : MData :=
  [("I", ⟨N, N, Imat⟩), ("M", ⟨N, N, Mmat⟩), ("d", ⟨1, 1, 0⟩),
   ("F", ⟨N, 1, Fmat⟩)]

/-- The normal-equations matrix of the concrete bounded problem,
`AᵀA = [[10, 5], [5, 5]]`. -/
def Bc : Mat 2 2 := ![![10, 5], ![5, 5]]

/-- The shifted normal-equations right-hand side of the concrete
bounded problem, `Aᵀy − AᵀA·lb = [1.5, 2]`. -/
def qc : Fin 2 → ℚ := ![3 / 2, 2]

/-- The lower-bound matrix `[[2.1], [2.5]]` of the bounded parameter. -/
def lbmat : Mat 2 1 := ![![21 / 10], ![5 / 2]]

end Symfit

/- ====================================================================
   Theorems.  First generic helper lemmas, then the per-claim theorems.
   ==================================================================== -/

namespace Symfit

theorem castMat_refl {r c : ℕ} (h1 : r = r) (h2 : c = c) (M : Mat r c) :
    castMat h1 h2 M = M := rfl

/-- A single scalar-model equation can never share a parameter across
two equations. -/
theorem shared_parameters_of_short (m : SModel) (h : m.length ≤ 1) :
    shared_parameters m = false := by
  match m, h with
  | [], _ => rfl
  | [eq], _ =>
    rw [shared_parameters, sharedParametersAux, if_neg]
    · rfl
    · simp

/-- Loop invariant of the `shared_parameters` accumulator walk: it
returns true iff some equation mentions a parameter seen in the
accumulator or in an earlier equation. -/
theorem sharedParametersAux_iff (l : SModel) : ∀ seen : List ℕ,
    sharedParametersAux seen l = true ↔
      ∃ i : Fin l.length, ∃ p, p ∈ (l.get i).2.params ∧
        (p ∈ seen ∨ ∃ j : Fin l.length, j.1 < i.1 ∧ p ∈ (l.get j).2.params) := by
  induction l with
  | nil =>
    intro seen
    simp only [sharedParametersAux]
    constructor
    · intro h
      exact absurd h (by simp)
    · rintro ⟨i, -⟩
      exact i.elim0
  | cons eq rest ih =>
    intro seen
    rw [sharedParametersAux]
    by_cases hany : eq.2.params.any (fun p => decide (p ∈ seen)) = true
    · rw [if_pos hany]
      simp only [true_iff]
      obtain ⟨p, hp, hps⟩ := List.any_eq_true.mp hany
      exact ⟨⟨0, Nat.succ_pos _⟩, p, hp, Or.inl (of_decide_eq_true hps)⟩
    · rw [if_neg hany, ih]
      have hnone : ∀ p ∈ eq.2.params, p ∉ seen := by
        intro p hp hps
        exact hany (List.any_eq_true.mpr ⟨p, hp, decide_eq_true hps⟩)
      constructor
      · rintro ⟨i', p, hp, hdisj⟩
        refine ⟨i'.succ, p, ?_, ?_⟩
        · simpa using hp
        · rcases hdisj with hseen | ⟨j', hj', hpj'⟩
          · rcases List.mem_append.mp hseen with h | h
            · exact Or.inl h
            · exact Or.inr ⟨⟨0, Nat.succ_pos _⟩, by simp, by simpa using h⟩
          · exact Or.inr ⟨j'.succ, by simpa using hj', by simpa using hpj'⟩
      · rintro ⟨i, p, hp, hdisj⟩
        induction i using Fin.cases with
        | zero =>
          rcases hdisj with hseen | ⟨j, hj, -⟩
          · exact absurd hseen (hnone p (by simpa using hp))
          · exact absurd hj (by simp)
        | succ i' =>
          refine ⟨i', p, by simpa using hp, ?_⟩
          rcases hdisj with hseen | ⟨j, hj, hpj⟩
          · exact Or.inl (List.mem_append_left _ hseen)
          · induction j using Fin.cases with
            | zero => exact Or.inl (List.mem_append_right _ (by simpa using hpj))
            | succ j' =>
              exact Or.inr ⟨j', by simpa using hj, by simpa using hpj⟩

/-- `shared_parameters` holds iff one parameter identity occurs in two
distinct equations. -/
theorem shared_parameters_iff (m : SModel) :
    shared_parameters m = true ↔
      ∃ p, ∃ i j : Fin m.length, i ≠ j ∧
        p ∈ (m.get i).2.params ∧ p ∈ (m.get j).2.params := by
  rw [shared_parameters, sharedParametersAux_iff]
  constructor
  · rintro ⟨i, p, hp, hdisj⟩
    rcases hdisj with hseen | ⟨j, hj, hpj⟩
    · exact absurd hseen (List.not_mem_nil p)
    · exact ⟨p, i, j, fun h => by simp [h] at hj, hp, hpj⟩
  · rintro ⟨p, i, j, hne, hpi, hpj⟩
    rcases Nat.lt_or_ge j.1 i.1 with h | h
    · exact ⟨i, p, hpi, Or.inr ⟨j, h, hpj⟩⟩
    · have h' : i.1 < j.1 := by
        rcases Nat.lt_or_ge i.1 j.1 with h' | h'
        · exact h'
        · exact absurd (Fin.ext (Nat.le_antisymm h' h)) (Ne.symm hne)
      exact ⟨j, p, hpj, Or.inr ⟨i, h', hpi⟩⟩

/-- C7: `Model.shared_parameters` is true iff the same Parameter
instance (identity) appears in at least two distinct equations of the
model; it is false for single-equation models and for vector models
whose equations use pairwise disjoint parameter sets. -/
theorem C7_shared_parameters_characterisation :
    (∀ m : SModel, shared_parameters m = true ↔
      ∃ p, ∃ i j : Fin m.length, i ≠ j ∧
        p ∈ (m.get i).2.params ∧ p ∈ (m.get j).2.params) ∧
    (∀ m : SModel, m.length ≤ 1 → shared_parameters m = false) ∧
    (∀ m : SModel,
      (∀ (i j : Fin m.length) p, i ≠ j →
        ¬(p ∈ (m.get i).2.params ∧ p ∈ (m.get j).2.params)) →
      shared_parameters m = false) := by
  refine ⟨shared_parameters_iff, shared_parameters_of_short, fun m hdisj => ?_⟩
  by_contra h
  have h' : shared_parameters m = true := by
    revert h
    cases shared_parameters m <;> simp
  obtain ⟨p, i, j, hne, hpi, hpj⟩ := (shared_parameters_iff m).mp h'
  exact hdisj i j p hne ⟨hpi, hpj⟩

/-- Witness for C7 at the concrete models of test_global_fitting: the
shared-`y0` model has `shared_parameters`, a single-equation model does
not. -/
theorem C7_shared_parameters_characterisation_witness :
    shared_parameters globalSharedModel = true ∧
      shared_parameters scalarModel = false := by
  constructor
  · refine (C7_shared_parameters_characterisation.1 globalSharedModel).mpr ?_
    exact ⟨7, ⟨0, by decide⟩, ⟨1, by decide⟩, by decide, by decide, by decide⟩
  · exact C7_shared_parameters_characterisation.2.1 scalarModel (by decide)

/-- C1 (counterexample): the claim predicts the constrained minimizer
for every vector model without constraints or bounds, but on the
two-equation disjoint-parameter model of test_global_fitting (which the
test requires to use `NumericalLeastSquares`) the dispatcher does not
select the constrained minimizer. -/
theorem C1_counterexample :
    2 ≤ globalDisjointModel.length ∧
      hasBounds regFree globalDisjointModel = false ∧
      (Fit.construct regFree globalDisjointModel []).fit
        ≠ MinimizerKind.constrainedNumericalLeastSquares := by decide

/-- C1 (amended): for a vector model with no constraints and no
parameter bounds, the dispatcher selects the constrained nonlinear
minimizer exactly when the model shares a parameter between equations;
a vector model with disjoint parameter sets selects the unconstrained
minimizer. -/
theorem C1_amended (reg : ParamRegistry) (m : SModel)
    (_hvec : 2 ≤ m.length) (hnb : hasBounds reg m = false) :
    (Fit.construct reg m []).fit = MinimizerKind.constrainedNumericalLeastSquares
      ↔ shared_parameters m = true := by
  show selectMinimizer reg m [] = _ ↔ _
  rw [selectMinimizer, hnb]
  cases hsh : shared_parameters m <;> simp

/-- Witness for C1 (amended) at the models of test_global_fitting. -/
theorem C1_amended_witness :
    (Fit.construct regFree globalSharedModel []).fit
        = MinimizerKind.constrainedNumericalLeastSquares ∧
      (Fit.construct regFree globalDisjointModel []).fit
        ≠ MinimizerKind.constrainedNumericalLeastSquares := by
  constructor
  · exact (C1_amended regFree globalSharedModel (by decide) (by decide)).mpr
      (by decide)
  · intro h
    have := (C1_amended regFree globalDisjointModel (by decide) (by decide)).mp h
    exact absurd this (by decide)

/-- C2: for a single-equation model with no bounds and no constraints
the dispatcher selects `NumericalLeastSquares`; any constraint, or any
explicit parameter bound, selects
`ConstrainedNumericalLeastSquares`.  The decision is the `fit` field of
the constructed `Fit` object, fixed at construction and hence
inspectable before `execute()` runs. -/
theorem C2_scalar_dispatch (reg : ParamRegistry) (m : SModel)
    (cs : List SConstraint) :
    (m.length = 1 → hasBounds reg m = false → cs = [] →
      (Fit.construct reg m cs).fit = MinimizerKind.numericalLeastSquares) ∧
    (cs ≠ [] →
      (Fit.construct reg m cs).fit
        = MinimizerKind.constrainedNumericalLeastSquares) ∧
    (hasBounds reg m = true →
      (Fit.construct reg m cs).fit
        = MinimizerKind.constrainedNumericalLeastSquares) := by
  refine ⟨fun hlen hnb hcs => ?_, fun hcs => ?_, fun hb => ?_⟩
  · show selectMinimizer reg m cs = _
    rw [selectMinimizer, hcs, hnb, shared_parameters_of_short m (by omega)]
    simp
  · show selectMinimizer reg m cs = _
    rw [selectMinimizer, if_pos]
    simp only [Bool.or_eq_true, decide_eq_true_eq]
    exact Or.inl (by simp [List.isEmpty_iff, hcs])
  · show selectMinimizer reg m cs = _
    rw [selectMinimizer, if_pos]
    simp only [Bool.or_eq_true, decide_eq_true_eq]
    exact Or.inl (Or.inr hb)

/-- Witness for C2 at the scalar model `{a_i: a + b}` of
test_vector_fitting, in its three configurations. -/
theorem C2_scalar_dispatch_witness :
    (Fit.construct regFree scalarModel []).fit
        = MinimizerKind.numericalLeastSquares ∧
      (Fit.construct regFree scalarModel [eqConstraint]).fit
        = MinimizerKind.constrainedNumericalLeastSquares ∧
      (Fit.construct regBounded scalarModel []).fit
        = MinimizerKind.constrainedNumericalLeastSquares := by
  refine ⟨?_, ?_, ?_⟩
  · exact (C2_scalar_dispatch regFree scalarModel []).1 (by decide) (by decide) rfl
  · exact (C2_scalar_dispatch regFree scalarModel [eqConstraint]).2.1
      (by simp)
  · exact (C2_scalar_dispatch regBounded scalarModel []).2.2 (by decide)

/-- Bool list helper: `all` is false exactly when a member fails. -/
theorem list_all_eq_false {α : Type} (l : List α) (p : α → Bool) :
    l.all p = false ↔ ∃ x ∈ l, ¬p x = true := by
  rw [← Bool.not_eq_true, List.all_eq_true]
  push_neg
  simp

/-- C4: a putative linear parameter that enters every one of its
equations nonlinearly (no affine decomposition exists, by symbolic
inspection) makes `LstSq.execute` fail with ModelError, for every data
mapping — including the empty one — and the model is never silently
treated as linear. -/
theorem C4_nonlinear_param_model_error (m : CallableModel) (d : MData)
    (pd : MatParam) (hmem : pd ∈ m.mparams) (hfx : pd.fixed = false)
    (hocc : m.occurs pd.name = true)
    (hnl : ∀ eq ∈ m.eqs, eq.rhs.affineParts pd.name pd.rows pd.cols = none) :
    LstSq.execute m d = .error .modelError := by
  have hae : affineEqsFor m pd = [] := by
    rw [affineEqsFor, List.filter_eq_nil_iff]
    intro eq heq
    rw [hnl eq heq]
    simp
  have hbad : m.hasNonlinearMatParam = true := by
    rw [CallableModel.hasNonlinearMatParam, List.any_eq_true]
    refine ⟨pd, hmem, ?_⟩
    rw [hfx, hocc, hae]
    rfl
  rw [LstSq.execute, executeWith, hbad]
  rfl

/-- Witness for C4 at `CallableModel({y: A * x**2})` of
test_nonlinear_problems, with the empty data mapping: the parameter
raised to the power 2 triggers the ModelError before any data is
consulted. -/
theorem C4_nonlinear_param_model_error_witness :
    LstSq.execute nonlinear_model [] = .error .modelError :=
  C4_nonlinear_param_model_error nonlinear_model [] x2Param
    (List.mem_singleton.mpr rfl) rfl rfl
    (fun eq heq => by
      rw [show nonlinear_model.eqs
          = [⟨"y", 2, 2, .mul (.data "A" 2 2) (.pow (.mparam "x" 2 2) 2)⟩]
        from rfl, List.mem_singleton] at heq
      subst heq
      rfl)

/-- C5 (counterexample): the claim says the no-data error is surfaced
at construction, but `LstSq(simple_model, data={})` constructs
successfully (as test_nodata requires) and the TypeError is raised only
by `execute()`. -/
theorem C5_counterexample :
    LstSq.construct simple_model [] = .ok (simple_model, []) ∧
      LstSq.execute simple_model [] = .error .typeError :=
  ⟨rfl, rfl⟩

/-- C5 (amended): calling the Linear Solver with an empty data mapping
fails with the TypeError-equivalent "no data supplied" configuration
error — not a numeric error — but the error is raised by `execute()`,
construction performing no validation. -/
theorem C5_amended_nodata_typeerror (m : CallableModel)
    (hnl : m.hasNonlinearMatParam = false) (hlp : m.linearParams ≠ []) :
    LstSq.execute m [] = .error .typeError := by
  rw [LstSq.execute, executeWith, hnl]
  have hchk : (m.linearParams.all fun pd =>
      (affineEqsFor m pd).all (eqDataOk [])) = false := by
    obtain ⟨pd, hpd⟩ := List.exists_mem_of_ne_nil _ hlp
    rw [list_all_eq_false]
    refine ⟨pd, hpd, ?_⟩
    have hpred := (List.mem_filter.mp hpd).2
    have hne : affineEqsFor m pd ≠ [] := by
      intro h0
      rw [Bool.and_eq_true, Bool.and_eq_true] at hpred
      have h3 := hpred.2
      rw [h0] at h3
      simp at h3
    obtain ⟨eq, heq⟩ := List.exists_mem_of_ne_nil _ hne
    rw [Bool.not_eq_true]
    refine (list_all_eq_false _ _).mpr ⟨eq, heq, ?_⟩
    rw [eqDataOk, show getData ([] : MData) eq.lhs eq.rows eq.cols = none from rfl]
    simp
  rw [hchk]
  rfl

/-- Witness for C5 (amended) at the simple linear model with empty
data. -/
theorem C5_amended_nodata_typeerror_witness :
    LstSq.execute simple_model [] = .error .typeError :=
  C5_amended_nodata_typeerror simple_model rfl
    (by
      rw [show simple_model.linearParams = [xParam] from rfl]
      exact List.cons_ne_nil _ _)

/- Concrete evaluation of the unbounded pipeline on the test data. -/

theorem gram_Amat : gram Amat = Bc := by
  funext i j
  fin_cases i <;> fin_cases j <;>
    simp [gram, Bc, Amat, Matrix.mul_apply, Matrix.transpose, Fin.sum_univ_two] <;>
    norm_num

theorem atv_Amat : atv Amat (fun r => ymat r 0) = ![35, 25] := by
  funext i
  fin_cases i <;>
    simp [atv, Amat, ymat, Matrix.mulVec, Matrix.dotProduct, Matrix.transpose,
      Fin.sum_univ_two] <;> norm_num

theorem solveCols_Amat : solveCols Amat ymat = some ![![2], ![3]] := by
  have hdet : (gram Amat).det = 25 := by
    rw [gram_Amat, Matrix.det_fin_two]
    norm_num [Bc]
  rw [solveCols, if_neg (by rw [hdet]; norm_num)]
  congr 1
  funext i j
  fin_cases i <;> fin_cases j <;>
    rw [hdet] <;> rw [Matrix.det_fin_two] <;>
    simp [Matrix.updateColumn_apply, atv_Amat, gram_Amat, Bc] <;> norm_num

theorem solveParam_simple : solveParamLstSq simple_model dataAy xParam
    = some ![![2], ![3]] := by
  have h1 : solveParamLstSq simple_model dataAy xParam
      = solveCols (Amat * 1) (ymat - Amat * (0 : Mat 2 1)) := rfl
  rw [h1, Matrix.mul_one, Matrix.mul_zero, sub_zero, solveCols_Amat]

theorem lstsq_execute_simple : LstSq.execute simple_model dataAy
    = .ok ⟨[("x", ⟨2, 1, ![![2], ![3]]⟩)]⟩ := by
  have hlin : simple_model.linearParams = [xParam] := rfl
  have hnlm : simple_model.hasNonlinearMatParam = false := rfl
  have hdata : (simple_model.linearParams.all fun pd =>
      (affineEqsFor simple_model pd).all (eqDataOk dataAy)) = true := rfl
  rw [LstSq.execute, executeWith, hnlm, hdata]
  simp only [Bool.not_true, Bool.false_eq_true, reduceIte]
  rw [hlin, solveAll, solveParam_simple]
  rfl

/- Concrete evaluation of the nonnegative solver on the shifted
normal-equations problem of the bounded test. -/

theorem isNonneg_spec {n : ℕ} (z : Fin n → ℚ) :
    isNonneg z = true ↔ ∀ k, 0 ≤ z k := by
  simp [isNonneg, List.all_eq_true, List.mem_finRange, decide_eq_true_eq]

theorem nnls_nonneg {L n : ℕ} (M : Mat L n) (c : Fin L → ℚ) (k : Fin n) :
    0 ≤ nnls M c k := by
  have hstep : ∀ (l : List (Fin n → ℚ)) (acc : Fin n → ℚ), isNonneg acc = true →
      (∀ z ∈ l, isNonneg z = true) →
      isNonneg (l.foldl
        (fun best z =>
          if lsObjective M c z < lsObjective M c best then z else best) acc) = true := by
    intro l
    induction l with
    | nil => exact fun acc h _ => h
    | cons a t ih =>
      intro acc hacc hmem
      rw [List.foldl_cons]
      refine ih _ ?_ fun z hz => hmem z (List.mem_cons_of_mem _ hz)
      by_cases hlt : lsObjective M c a < lsObjective M c acc
      · rw [if_pos hlt]
        exact hmem a (List.mem_cons_self _ _)
      · rw [if_neg hlt]
        exact hacc
  have hbase : isNonneg (0 : Fin n → ℚ) = true := by
    rw [isNonneg_spec]
    intro k
    simp
  have hall : ∀ z ∈ ((allSupports n).filterMap
      (supportCandidate M c)).filter isNonneg, isNonneg z = true :=
    fun z hz => (List.mem_filter.mp hz).2
  have hres := hstep _ _ hbase hall
  rw [isNonneg_spec] at hres
  simpa only [nnls] using hres k

theorem gram_Bc : gram Bc = ![![125, 75], ![75, 50]] := by
  funext i j
  fin_cases i <;> fin_cases j <;>
    simp [gram, Bc, Matrix.mul_apply, Matrix.transpose, Fin.sum_univ_two] <;>
    norm_num

theorem atv_Bc : atv Bc qc = ![25, 35 / 2] := by
  funext i
  fin_cases i <;>
    simp [atv, Bc, qc, Matrix.mulVec, Matrix.dotProduct, Matrix.transpose,
      Fin.sum_univ_two] <;> norm_num

theorem cramerSolve_two (B : Mat 2 2) (c : Fin 2 → ℚ) (h : B.det ≠ 0) :
    cramerSolve B c = some ![(c 0 * B 1 1 - B 0 1 * c 1) / B.det,
      (B 0 0 * c 1 - c 0 * B 1 0) / B.det] := by
  rw [cramerSolve, if_neg h]
  refine congrArg some (funext fun i => ?_)
  fin_cases i <;>
    simp [Matrix.det_fin_two, Matrix.updateColumn_apply]

theorem allSupports_two : allSupports 2
    = [![false, false], ![true, false], ![false, true], ![true, true]] := by
  decide

theorem suppG_none : (fun i j => if (![false, false] : Fin 2 → Bool) i
      && (![false, false] : Fin 2 → Bool) j then gram Bc i j
    else if i = j then (1 : ℚ) else 0) = (1 : Mat 2 2) := by
  funext i j
  fin_cases i <;> fin_cases j <;> simp [Matrix.one_apply]

theorem cand_none : supportCandidate Bc qc ![false, false] = some 0 := by
  rw [supportCandidate, suppG_none]
  rw [cramerSolve_two _ _ (by rw [Matrix.det_one]; norm_num)]
  refine congrArg some (funext fun k => ?_)
  fin_cases k <;> simp [Matrix.one_apply, Matrix.det_one]

theorem suppG_fst : (fun i j => if (![true, false] : Fin 2 → Bool) i
      && (![true, false] : Fin 2 → Bool) j then gram Bc i j
    else if i = j then (1 : ℚ) else 0) = ![![125, 0], ![0, 1]] := by
  funext i j
  fin_cases i <;> fin_cases j <;> simp [gram_Bc]

theorem supph_fst : (fun i => if (![true, false] : Fin 2 → Bool) i
    then atv Bc qc i else 0) = ![25, 0] := by
  funext i
  fin_cases i <;> simp [atv_Bc]

theorem cand_fst : supportCandidate Bc qc ![true, false] = some ![1 / 5, 0] := by
  rw [supportCandidate, suppG_fst, supph_fst]
  rw [cramerSolve_two _ _ (by rw [Matrix.det_fin_two]; norm_num)]
  refine congrArg some (funext fun k => ?_)
  fin_cases k <;> rw [Matrix.det_fin_two] <;> norm_num

theorem suppG_snd : (fun i j => if (![false, true] : Fin 2 → Bool) i
      && (![false, true] : Fin 2 → Bool) j then gram Bc i j
    else if i = j then (1 : ℚ) else 0) = ![![1, 0], ![0, 50]] := by
  funext i j
  fin_cases i <;> fin_cases j <;> simp [gram_Bc]

theorem supph_snd : (fun i => if (![false, true] : Fin 2 → Bool) i
    then atv Bc qc i else 0) = ![0, 35 / 2] := by
  funext i
  fin_cases i <;> simp [atv_Bc]

theorem cand_snd : supportCandidate Bc qc ![false, true] = some ![0, 7 / 20] := by
  rw [supportCandidate, suppG_snd, supph_snd]
  rw [cramerSolve_two _ _ (by rw [Matrix.det_fin_two]; norm_num)]
  refine congrArg some (funext fun k => ?_)
  fin_cases k <;> rw [Matrix.det_fin_two] <;> norm_num

theorem suppG_both : (fun i j => if (![true, true] : Fin 2 → Bool) i
      && (![true, true] : Fin 2 → Bool) j then gram Bc i j
    else if i = j then (1 : ℚ) else 0) = ![![125, 75], ![75, 50]] := by
  funext i j
  fin_cases i <;> fin_cases j <;> simp [gram_Bc]

theorem supph_both : (fun i => if (![true, true] : Fin 2 → Bool) i
    then atv Bc qc i else 0) = ![25, 35 / 2] := by
  funext i
  fin_cases i <;> simp [atv_Bc]

theorem cand_both : supportCandidate Bc qc ![true, true]
    = some ![-1 / 10, 1 / 2] := by
  rw [supportCandidate, suppG_both, supph_both]
  rw [cramerSolve_two _ _ (by rw [Matrix.det_fin_two]; norm_num)]
  refine congrArg some (funext fun k => ?_)
  fin_cases k <;> rw [Matrix.det_fin_two] <;> norm_num

theorem obj_zero : lsObjective Bc qc 0 = 25 / 4 := by
  simp [lsObjective, Fin.sum_univ_two, Matrix.mulVec, Matrix.dotProduct, Bc, qc]
  norm_num

theorem obj_fst : lsObjective Bc qc ![1 / 5, 0] = 5 / 4 := by
  simp [lsObjective, Fin.sum_univ_two, Matrix.mulVec, Matrix.dotProduct, Bc, qc]
  norm_num

theorem obj_snd : lsObjective Bc qc ![0, 7 / 20] = 1 / 8 := by
  simp [lsObjective, Fin.sum_univ_two, Matrix.mulVec, Matrix.dotProduct, Bc, qc]
  norm_num

theorem nn_zero : isNonneg (0 : Fin 2 → ℚ) = true := by
  rw [isNonneg_spec]
  intro k
  simp

theorem nn_fst : isNonneg ![(1 : ℚ) / 5, 0] = true := by
  rw [isNonneg_spec]
  intro k
  fin_cases k <;> norm_num

theorem nn_snd : isNonneg ![(0 : ℚ), 7 / 20] = true := by
  rw [isNonneg_spec]
  intro k
  fin_cases k <;> norm_num

theorem nn_both : isNonneg ![(-1 : ℚ) / 10, 1 / 2] = false := by
  refine eq_false_of_ne_true fun h => ?_
  rw [isNonneg_spec] at h
  have h0 := h 0
  norm_num at h0

theorem nnls_Bc_qc : nnls Bc qc = ![0, 7 / 20] := by
  simp only [nnls]
  rw [allSupports_two]
  rw [List.filterMap_cons, List.filterMap_cons, List.filterMap_cons,
    List.filterMap_cons, List.filterMap_nil, cand_none, cand_fst, cand_snd,
    cand_both]
  show (List.filter isNonneg
    [0, ![1 / 5, 0], ![0, 7 / 20], ![-1 / 10, 1 / 2]]).foldl _ _ = _
  rw [List.filter_cons, List.filter_cons, List.filter_cons, List.filter_cons,
    List.filter_nil, nn_zero, nn_fst, nn_snd, nn_both]
  show List.foldl _ 0 [0, ![1 / 5, 0], ![0, 7 / 20]] = _
  rw [List.foldl_cons, if_neg (by rw [obj_zero]; norm_num)]
  rw [List.foldl_cons, if_pos (by rw [obj_fst, obj_zero]; norm_num)]
  rw [List.foldl_cons, if_pos (by rw [obj_snd, obj_fst]; norm_num)]
  rw [List.foldl_nil]

/- Concrete evaluation of the bounded pipeline on the test data. -/

theorem shifted_rhs : (fun r => atv Amat (fun r2 => ymat r2 0) r
    - (gram Amat).mulVec (fun k => lbmat k 0) r) = qc := by
  funext r
  rw [atv_Amat, gram_Amat]
  fin_cases r <;>
    simp [Bc, qc, lbmat, Matrix.mulVec, Matrix.dotProduct, Fin.sum_univ_two] <;>
    norm_num

theorem boundedCol_concrete : boundedCol Amat (fun r => ymat r 0)
    (fun k => lbmat k 0) (fun _ => none) = ![21 / 10, 57 / 20] := by
  funext i
  simp only [boundedCol]
  rw [shifted_rhs, gram_Amat, nnls_Bc_qc]
  fin_cases i <;> norm_num [lbmat]

theorem boundedSolveCols_concrete :
    boundedSolveCols Amat ymat lbmat none = ![![21 / 10], ![57 / 20]] := by
  funext i j
  fin_cases j
  show boundedCol Amat (fun r => ymat r 0) (fun k => lbmat k 0) (fun _ => none) i
    = ![![21 / 10], ![57 / 20]] i 0
  rw [boundedCol_concrete]
  fin_cases i <;> norm_num

theorem solveParam_bounded : solveParamLstSqBounds bounded_model dataAy
    xBoundedParam = some ![![21 / 10], ![57 / 20]] := by
  have h1 : solveParamLstSqBounds bounded_model dataAy xBoundedParam
      = some (boundedSolveCols (Amat * 1) (ymat - Amat * (0 : Mat 2 1))
          lbmat none) := rfl
  rw [h1, Matrix.mul_one, Matrix.mul_zero, sub_zero, boundedSolveCols_concrete]

theorem lstsqbounds_execute_bounded : LstSqBounds.execute bounded_model dataAy
    = .ok ⟨[("x_bounded", ⟨2, 1, ![![21 / 10], ![57 / 20]]⟩)]⟩ := by
  have hlin : bounded_model.linearParams = [xBoundedParam] := rfl
  have hnlm : bounded_model.hasNonlinearMatParam = false := rfl
  have hdata : (bounded_model.linearParams.all fun pd =>
      (affineEqsFor bounded_model pd).all (eqDataOk dataAy)) = true := rfl
  rw [LstSqBounds.execute, executeWith, hnlm, hdata]
  simp only [Bool.not_true, Bool.false_eq_true, reduceIte]
  rw [hlin, solveAll, solveParam_bounded]
  rfl

/-- C6: every component of the solution a bounded linear least-squares
solve (the `LstSqBounds` column solve) returns satisfies `lb ≤ x̂`
(lower bound inclusive, from the nonnegativity of the shifted solve)
and `x̂ < ub` wherever an upper bound is present (upper bound exclusive,
enforced by policy), for every design matrix, target, and sane bound
pair. -/
theorem C6_bounded_solution_within_bounds {L n : ℕ} (A : Mat L n)
    (y : Fin L → ℚ) (lb : Fin n → ℚ) (ub : Fin n → Option ℚ)
    (hsane : ∀ i u, ub i = some u → lb i < u) (i : Fin n) :
    lb i ≤ boundedCol A y lb ub i ∧
      ∀ u, ub i = some u → boundedCol A y lb ub i < u := by
  have hz : 0 ≤ nnls (gram A)
      (fun r => atv A y r - (gram A).mulVec lb r) i :=
    nnls_nonneg _ _ i
  simp only [boundedCol]
  cases hub : ub i with
  | none => exact ⟨le_add_of_nonneg_right hz, fun u hu => by cases hu⟩
  | some u =>
    have hlbu : lb i < u := hsane i u hub
    by_cases hlt : lb i + nnls (gram A)
        (fun r => atv A y r - (gram A).mulVec lb r) i < u
    · refine ⟨?_, fun u' hu' => ?_⟩
      · exact le_of_le_of_eq (le_add_of_nonneg_right hz) (if_pos hlt).symm
      · obtain rfl : u = u' := Option.some.inj hu'
        exact lt_of_eq_of_lt (if_pos hlt) hlt
    · refine ⟨?_, fun u' hu' => ?_⟩
      · exact le_of_le_of_eq (by linarith : lb i ≤ (lb i + u) / 2) (if_neg hlt).symm
      · obtain rfl : u = u' := Option.some.inj hu'
        exact lt_of_eq_of_lt (if_neg hlt) (by linarith)

/-- Witness for C6 at the concrete bounded problem of the tests, with
an upper bound of 3 adjoined: the solved first component respects both
ends of the half-open interval. -/
theorem C6_bounded_solution_within_bounds_witness :
    (fun k => lbmat k 0) 0 ≤ boundedCol Amat (fun r => ymat r 0)
        (fun k => lbmat k 0) (fun _ => some 3) 0 ∧
      boundedCol Amat (fun r => ymat r 0) (fun k => lbmat k 0)
        (fun _ => some 3) 0 < 3 := by
  have h := C6_bounded_solution_within_bounds Amat (fun r => ymat r 0)
    (fun k => lbmat k 0) (fun _ => some 3)
    (fun i u hu => by
      obtain rfl : (3 : ℚ) = u := Option.some.inj hu
      fin_cases i <;> simp [lbmat] <;> norm_num) 0
  exact ⟨h.1, h.2 3 rfl⟩

/-- C9: on the concrete problem `y = A·x`, `A = [[3,1],[1,2]]`,
`y = [9,8]`, the Dispatcher attaches the unbounded solver `LstSq` to
the model whose linear parameter is unbounded and the bounded solver
`LstSqBounds` to the model whose parameter carries bounds; the purely
linear fit short-circuits through the attached Linear Solver, returning
exactly `x = [2, 3]` for the unbounded model and
`x_bounded = [2.1, 2.85]` for the bounded one. -/
theorem C9_linear_fit_concrete :
    Fit.linear_solver simple_model = some .lstsq ∧
    Fit.linear_solver bounded_model = some .lstsqBounds ∧
    Fit.executeLinear simple_model dataAy
      = some (LstSq.execute simple_model dataAy) ∧
    Fit.executeLinear bounded_model dataAy
      = some (LstSqBounds.execute bounded_model dataAy) ∧
    fitEntry (Fit.executeLinear simple_model dataAy) "x" 0 0 = some 2 ∧
    fitEntry (Fit.executeLinear simple_model dataAy) "x" 1 0 = some 3 ∧
    fitEntry (Fit.executeLinear bounded_model dataAy) "x_bounded" 0 0
      = some (21 / 10) ∧
    fitEntry (Fit.executeLinear bounded_model dataAy) "x_bounded" 1 0
      = some (57 / 20) := by
  have hs : Fit.executeLinear simple_model dataAy
      = some (LstSq.execute simple_model dataAy) := rfl
  have hb : Fit.executeLinear bounded_model dataAy
      = some (LstSqBounds.execute bounded_model dataAy) := rfl
  refine ⟨rfl, rfl, hs, hb, ?_, ?_, ?_, ?_⟩
  · rw [hs, lstsq_execute_simple]
    rfl
  · rw [hs, lstsq_execute_simple]
    rfl
  · rw [hb, lstsqbounds_execute_bounded]
    rfl
  · rw [hb, lstsqbounds_execute_bounded]
    rfl

/-- Agreement of the two solvers' per-parameter solves propagates
through `solveAll`. -/
theorem solveAll_congr
    (f g : (pd : MatParam) → Option (Mat pd.rows pd.cols)) :
    ∀ l : List MatParam, (∀ pd ∈ l, f pd = g pd) →
      solveAll f l = solveAll g l := by
  intro l
  induction l with
  | nil => intro _; rfl
  | cons pd rest ih =>
    intro h
    rw [solveAll, solveAll, h pd (List.mem_cons_self _ _),
      ih fun p hp => h p (List.mem_cons_of_mem _ hp)]

/-- C10: on a model none of whose matrix parameters carries a lower
bound, `LstSqBounds.execute` coincides with `LstSq.execute` — the
bounded variant degenerates to ordinary least squares — and on the
concrete problem both return `x = [2, 3]`. -/
theorem C10_bounded_degenerates_to_lstsq :
    (∀ (m : CallableModel) (d : MData),
      (∀ pd ∈ m.mparams, pd.pmin = none) →
        LstSqBounds.execute m d = LstSq.execute m d) ∧
    executedEntry (LstSqBounds.execute simple_model dataAy) "x" 0 0 = some 2 ∧
    executedEntry (LstSqBounds.execute simple_model dataAy) "x" 1 0 = some 3 := by
  have hgen : ∀ (m : CallableModel) (d : MData),
      (∀ pd ∈ m.mparams, pd.pmin = none) →
        LstSqBounds.execute m d = LstSq.execute m d := by
    intro m d hmin
    rw [LstSqBounds.execute, LstSq.execute, executeWith, executeWith]
    rw [solveAll_congr (solveParamLstSqBounds m d) (solveParamLstSq m d)
      m.linearParams fun pd hpd => ?_]
    have hpm : pd.pmin = none :=
      hmin pd (List.mem_of_mem_filter hpd)
    rw [solveParamLstSqBounds, solveParamLstSq, hpm]
  refine ⟨hgen, ?_, ?_⟩ <;>
    rw [hgen simple_model dataAy
        (fun pd hpd => by
          rw [show simple_model.mparams = [xParam] from rfl,
            List.mem_singleton] at hpd
          subst hpd
          rfl),
      lstsq_execute_simple] <;>
    rfl

/-- Witness for C10 at the concrete unbounded model and data. -/
theorem C10_bounded_degenerates_to_lstsq_witness :
    LstSqBounds.execute simple_model dataAy
      = LstSq.execute simple_model dataAy :=
  C10_bounded_degenerates_to_lstsq.1 simple_model dataAy
    (fun pd hpd => by
      rw [show simple_model.mparams = [xParam] from rfl,
        List.mem_singleton] at hpd
      subst hpd
      rfl)

theorem normal_solve_exact (A : Mat 2 2) (y : Mat 2 1) (hdet : A.det ≠ 0) :
    ∃ X : Mat 2 1, solveCols A y = some X ∧ A * X = y := by
  have hgd : (gram A).det = A.det * A.det := by
    rw [gram, Matrix.det_mul, Matrix.det_transpose]
  have hg0 : (gram A).det ≠ 0 := by
    rw [hgd]
    exact mul_ne_zero hdet hdet
  refine ⟨fun i j => ((gram A).updateColumn i (atv A fun r => y r j)).det
      / (gram A).det, ?_, ?_⟩
  · rw [solveCols, if_neg hg0]
  · have hcol : ∀ j : Fin 1, A.mulVec
        (fun i => ((gram A).updateColumn i (atv A fun r => y r j)).det
          / (gram A).det) = fun r => y r j := by
      intro j
      have hx : (fun i => ((gram A).updateColumn i (atv A fun r => y r j)).det
          / (gram A).det)
          = ((gram A).det)⁻¹ • Matrix.cramer (gram A) (atv A fun r => y r j) := by
        funext i
        simp [Matrix.cramer_apply, div_eq_inv_mul]
      have hnormal : (gram A).mulVec
          (fun i => ((gram A).updateColumn i (atv A fun r => y r j)).det
            / (gram A).det) = atv A fun r => y r j := by
        rw [hx, Matrix.mulVec_smul, Matrix.mulVec_cramer, smul_smul,
          inv_mul_cancel₀ hg0, one_smul]
      -- gram A = Aᵀ * A, so Aᵀ (A x − y_col) = 0
      have hr : (Matrix.transpose A).mulVec
          (A.mulVec (fun i => ((gram A).updateColumn i
            (atv A fun r => y r j)).det / (gram A).det)
            - fun r => y r j) = 0 := by
        rw [Matrix.mulVec_sub]
        rw [Matrix.mulVec_mulVec]
        rw [show Matrix.transpose A * A = gram A from rfl, hnormal]
        rw [show (Matrix.transpose A).mulVec (fun r => y r j)
          = atv A fun r => y r j from rfl]
        simp
      have hTdet : IsUnit (Matrix.transpose A).det := by
        rw [Matrix.det_transpose]
        exact isUnit_iff_ne_zero.mpr hdet
      have hzero : A.mulVec (fun i => ((gram A).updateColumn i
          (atv A fun r => y r j)).det / (gram A).det) - (fun r => y r j) = 0 := by
        have h1 := congrArg ((Matrix.transpose A)⁻¹).mulVec hr
        rwa [Matrix.mulVec_mulVec, Matrix.nonsing_inv_mul _ hTdet,
          Matrix.one_mulVec, Matrix.mulVec_zero] at h1
      have := sub_eq_zero.mp hzero
      exact this
    funext i j
    have h1 := congrFun (hcol j) i
    simpa [Matrix.mulVec, Matrix.dotProduct, Matrix.mul_apply] using h1

theorem c3_exec (A : Mat 2 2) (y : Mat 2 1) (hdet : A.det ≠ 0) :
    ∃ X, LstSq.execute simple_model (dataOf A y) = .ok ⟨[("x", ⟨2, 1, X⟩)]⟩
      ∧ A * X = y := by
  obtain ⟨X, hs, hax⟩ := normal_solve_exact A y hdet
  refine ⟨X, ?_, hax⟩
  have hsp : solveParamLstSq simple_model (dataOf A y) xParam = some X := by
    have h1 : solveParamLstSq simple_model (dataOf A y) xParam
        = solveCols (A * 1) (y - A * (0 : Mat 2 1)) := rfl
    rw [h1, Matrix.mul_one, Matrix.mul_zero, sub_zero, hs]
  have hlin : simple_model.linearParams = [xParam] := rfl
  have hnlm : simple_model.hasNonlinearMatParam = false := rfl
  have hdata : (simple_model.linearParams.all fun pd =>
      (affineEqsFor simple_model pd).all (eqDataOk (dataOf A y))) = true := rfl
  rw [LstSq.execute, executeWith, hnlm, hdata]
  simp only [Bool.not_true, Bool.false_eq_true, reduceIte]
  rw [hlin, solveAll, hsp]
  rfl

/-- C3 (amended): the round-trip invariant holds for well-posed,
exactly-solvable linear problems: for every invertible design matrix,
evaluating the model at the independent data together with the fit
result's parameter values reproduces the dependent data exactly.  For
genuinely overdetermined least-squares problems the solver only
minimises the residual, which need not be within the stated tolerance
(see the counterexample). -/
theorem C3_round_trip_amended (A : Mat 2 2) (y : Mat 2 1) (hdet : A.det ≠ 0) :
    (LstSq.execute simple_model (dataOf A y)).isOk = true ∧
    ∀ i : Fin 2,
      fittedModelEntry simple_model (dataOf A y)
        (execResult (LstSq.execute simple_model (dataOf A y))) 0 i.1 0
        = some (y i 0) ∧
      dataEntry (dataOf A y) "y" i.1 0 = some (y i 0) := by
  obtain ⟨X, hex, hax⟩ := c3_exec A y hdet
  rw [hex]
  refine ⟨rfl, fun i => ⟨?_, ?_⟩⟩
  · fin_cases i
    · show some ((A * X) 0 0) = some (y 0 0)
      rw [hax]
    · show some ((A * X) 1 0) = some (y 1 0)
      rw [hax]
  · fin_cases i <;> rfl

theorem gram_Ov : gram AmatOv = ![![2]] := by
  funext i j
  fin_cases i
  fin_cases j
  simp [gram, AmatOv, Matrix.mul_apply, Matrix.transpose, Fin.sum_univ_two]

theorem atv_Ov : atv AmatOv (fun r => ymatOv r 0) = ![1] := by
  funext i
  fin_cases i
  simp [atv, AmatOv, ymatOv, Matrix.mulVec, Matrix.dotProduct, Matrix.transpose,
    Fin.sum_univ_two]

theorem solveCols_Ov : solveCols AmatOv ymatOv = some ![![1 / 2]] := by
  have hdet : (gram AmatOv).det = 2 := by
    rw [gram_Ov, Matrix.det_fin_one]
    norm_num
  rw [solveCols, if_neg (by rw [hdet]; norm_num)]
  congr 1
  funext i j
  fin_cases i
  fin_cases j
  rw [hdet, Matrix.det_fin_one]
  simp [Matrix.updateColumn_apply, atv_Ov]

theorem lstsq_execute_Ov : LstSq.execute overdet_model dataOv
    = .ok ⟨[("x", ⟨1, 1, ![![1 / 2]]⟩)]⟩ := by
  have hsp : solveParamLstSq overdet_model dataOv xOvParam = some ![![1 / 2]] := by
    have h1 : solveParamLstSq overdet_model dataOv xOvParam
        = solveCols (AmatOv * (1 : Mat 1 1)) (ymatOv - AmatOv * (0 : Mat 1 1)) := rfl
    rw [h1, Matrix.mul_one, Matrix.mul_zero, sub_zero, solveCols_Ov]
  have hlin : overdet_model.linearParams = [xOvParam] := rfl
  have hnlm : overdet_model.hasNonlinearMatParam = false := rfl
  have hdata : (overdet_model.linearParams.all fun pd =>
      (affineEqsFor overdet_model pd).all (eqDataOk dataOv)) = true := rfl
  rw [LstSq.execute, executeWith, hnlm, hdata]
  simp only [Bool.not_true, Bool.false_eq_true, reduceIte]
  rw [hlin, solveAll, hsp]
  rfl

/-- C3 (counterexample): a fit result produced by `execute()` on an
overdetermined least-squares problem (two rows, one unknown,
inconsistent targets) does not reproduce the dependent data within the
stated `1e-5` tolerance: the model evaluates to `1/2` where the data
is `0`. -/
theorem C3_counterexample :
    executedEntry (LstSq.execute overdet_model dataOv) "x" 0 0 = some (1 / 2) ∧
    fittedModelEntry overdet_model dataOv
      (execResult (LstSq.execute overdet_model dataOv)) 0 0 0 = some (1 / 2) ∧
    dataEntry dataOv "y" 0 0 = some 0 ∧
    ¬|(1 : ℚ) / 2 - 0| < 1 / 100000 := by
  refine ⟨?_, ?_, rfl, ?_⟩
  · rw [lstsq_execute_Ov]
    rfl
  · have hev : fittedModelEntry overdet_model dataOv
        (execResult (LstSq.execute overdet_model dataOv)) 0 0 0
        = some ((AmatOv * Matrix.of ![![(1 : ℚ) / 2]])
            (⟨0, by norm_num⟩ : Fin 2) (⟨0, by norm_num⟩ : Fin 1)) := by
      rw [lstsq_execute_Ov]
      rfl
    rw [hev]
    congr 1
    simp [AmatOv, Matrix.mul_apply, Fin.sum_univ_one]
  · rw [sub_zero, abs_of_pos (by norm_num : (0 : ℚ) < 1 / 2)]
    norm_num


/-- Witness for C3 (amended) at the concrete invertible test system. -/
theorem C3_round_trip_amended_witness :
    (LstSq.execute simple_model (dataOf Amat ymat)).isOk = true ∧
      fittedModelEntry simple_model (dataOf Amat ymat)
        (execResult (LstSq.execute simple_model (dataOf Amat ymat))) 0 0 0
        = some (ymat 0 0) ∧
      dataEntry (dataOf Amat ymat) "y" 0 0 = some (ymat 0 0) := by
  have h := C3_round_trip_amended Amat ymat
    (by rw [Matrix.det_fin_two]; norm_num [Amat])
  exact ⟨h.1, (h.2 0).1, (h.2 0).2⟩

/- Symbolic evaluation of the affine decomposition on the subproblem
model of test_linear_subproblem. -/

theorem subAffineLeaf (N : ℕ) :
    (MExpr.mparam "c" N 1).affineParts "c" N 1 = some (.idm N, .zero N 1) := by
  rw [MExpr.affineParts.eq_def]
  simp only [MExpr.containsP]
  norm_num

theorem subAffineMul (N : ℕ) :
    ((MExpr.add (.data "I" N N)
        (.smul (.inv (.pow (.sparam "a") 2)) (.data "M" N N))).mul
      (.mparam "c" N 1)).affineParts "c" N 1
    = some ((MExpr.add (.data "I" N N)
              (.smul (.inv (.pow (.sparam "a") 2)) (.data "M" N N))).mul (.idm N),
            (MExpr.add (.data "I" N N)
              (.smul (.inv (.pow (.sparam "a") 2)) (.data "M" N N))).mul
              (.zero N 1)) := by
  rw [MExpr.affineParts.eq_def]
  simp only [MExpr.containsP, subAffineLeaf]
  norm_num

theorem subAffineF (N : ℕ) :
    (MExpr.smul (.sparam "z")
      (.mul (.add (.data "I" N N)
                  (.smul (.inv (.pow (.sparam "a") 2)) (.data "M" N N)))
            (.mparam "c" N 1))).affineParts "c" N 1
    = some (.smul (.sparam "z")
              (.mul (.add (.data "I" N N)
                          (.smul (.inv (.pow (.sparam "a") 2)) (.data "M" N N)))
                    (.idm N)),
            .smul (.sparam "z")
              (.mul (.add (.data "I" N N)
                          (.smul (.inv (.pow (.sparam "a") 2)) (.data "M" N N)))
                    (.zero N 1))) := by
  rw [MExpr.affineParts.eq_def]
  simp only [MExpr.containsP, subAffineMul]
  norm_num

theorem subAffineD (N : ℕ) :
    ((MExpr.transpose (.mparam "c" N 1)).mul
      (.mparam "c" N 1)).affineParts "c" N 1 = none := by
  rw [MExpr.affineParts.eq_def]
  simp only [MExpr.containsP]
  norm_num

theorem subGetF (N : ℕ) (Imat Mmat : Mat N N) (Fmat : Mat N 1) :
    getData (subproblemData N Imat Mmat Fmat) "F" N 1 = some Fmat := by
  rw [getData.eq_def,
    show (subproblemData N Imat Mmat Fmat).lookup "F" = some ⟨N, 1, Fmat⟩ from rfl]
  show (if h : N = N ∧ 1 = 1 then some (castMat h.1 h.2 Fmat) else none) = some Fmat
  rw [dif_pos (⟨rfl, rfl⟩ : N = N ∧ 1 = 1)]
  rfl

theorem subEnvI (N : ℕ) (Imat Mmat : Mat N N) (Fmat : Mat N 1) :
    dataEnv (subproblemData N Imat Mmat Fmat) "I" N N = Imat := by
  rw [dataEnv, getData.eq_def,
    show (subproblemData N Imat Mmat Fmat).lookup "I" = some ⟨N, N, Imat⟩ from rfl]
  show (if h : N = N ∧ N = N then some (castMat h.1 h.2 Imat) else none).getD 0 = Imat
  rw [dif_pos (⟨rfl, rfl⟩ : N = N ∧ N = N)]
  rfl

theorem subEnvM (N : ℕ) (Imat Mmat : Mat N N) (Fmat : Mat N 1) :
    dataEnv (subproblemData N Imat Mmat Fmat) "M" N N = Mmat := by
  rw [dataEnv, getData.eq_def,
    show (subproblemData N Imat Mmat Fmat).lookup "M" = some ⟨N, N, Mmat⟩ from rfl]
  show (if h : N = N ∧ N = N then some (castMat h.1 h.2 Mmat) else none).getD 0 = Mmat
  rw [dif_pos (⟨rfl, rfl⟩ : N = N ∧ N = N)]
  rfl

theorem subSEnvZ (N : ℕ) (av zv : ℚ) :
    (subproblem_model N av zv).sEnv "z" = zv := rfl

theorem subSEnvA (N : ℕ) (av zv : ℚ) :
    (subproblem_model N av zv).sEnv "a" = av := rfl

theorem sub_linearParams (N : ℕ) (av zv : ℚ) :
    (subproblem_model N av zv).linearParams = [cParam N] := by
  rw [CallableModel.linearParams]
  show List.filter _ [cParam N] = _
  rw [List.filter_cons, List.filter_nil]
  rw [if_pos]
  rw [Bool.and_eq_true, Bool.and_eq_true]
  refine ⟨⟨rfl, rfl⟩, ?_⟩
  have haeq : affineEqsFor (subproblem_model N av zv) (cParam N)
      = [⟨"F", N, 1, MExpr.smul (.sparam "z")
          (.mul (.add (.data "I" N N)
                      (.smul (.inv (.pow (.sparam "a") 2)) (.data "M" N N)))
                (.mparam "c" N 1))⟩] := by
    rw [affineEqsFor]
    show List.filter _ [_, _] = _
    rw [List.filter_cons, List.filter_cons, List.filter_nil]
    rw [if_pos (by simp only [cParam, subAffineF]; rfl),
      if_neg (by simp only [cParam, subAffineD]; simp)]
  rw [haeq]
  rfl

/-- C8: on the subproblem model `{F: z * (I + M / a**2) * c, d: c.T * c}`
the per-equation `(A, y)` data the Linear Solver builds for the linear
parameter `c` is exactly the pair from the `F`-equation — the design
matrix evaluated at the current scalar-parameter values,
`A = z.value * (I_mat + M_mat / a.value**2)`, and the dependent data
`y = F_mat` — for every size `N`, every current value of `a` and `z`,
and all supplied data; the `d`-equation, in which `c` is nonlinear, is
not used; and the Dispatcher attaches the unbounded solver `LstSq`
since `c` is unbounded. -/
theorem C8_subproblem_design_matrix (N : ℕ) (av zv : ℚ)
    (Imat Mmat : Mat N N) (Fmat : Mat N 1) :
    subproblems_data (subproblem_model N av zv)
        (subproblemData N Imat Mmat Fmat) (cParam N)
      = [⟨N, Matrix.of fun i j => zv * (Imat i j + Mmat i j / av ^ 2), Fmat⟩] ∧
    Fit.linear_solver (subproblem_model N av zv) = some .lstsq := by
  constructor
  · rw [subproblems_data]
    show List.filterMap _ [_, _] = _
    rw [List.filterMap_cons, List.filterMap_cons, List.filterMap_nil]
    rw [buildSubproblem, buildSubproblem]
    simp only [cParam, subAffineF, subAffineD]
    rw [dif_pos trivial, subGetF]
    simp only [MExpr.eval, SExpr.eval]
    rw [subSEnvZ, subSEnvA, subEnvI, subEnvM, Matrix.mul_one, Matrix.mul_zero,
      smul_zero, sub_zero, castMat_refl]
    have hmat : zv • (Imat + (av ^ 2)⁻¹ • Mmat)
        = Matrix.of fun i j => zv * (Imat i j + Mmat i j / av ^ 2) := by
      funext i j
      simp only [Matrix.smul_apply, Matrix.add_apply, Matrix.of_apply,
        smul_eq_mul, div_eq_mul_inv]
      ring
    rw [hmat]
  · rw [Fit.linear_solver, sub_linearParams]
    rfl

end Symfit
